import Mathlib

/-!
# Verification of the password strength scoring engine

Shallow embedding of `password_strength.py`. Passwords are modelled as
`List Char`; Python character classification is modelled with its ASCII
semantics (the behaviour exercised by the engine's fixed word lists and
alphabets). Python floats are modelled as exact real numbers, so the
definitions touching `math.log2` live in `ℝ` and are marked
`noncomputable`; all combinatorial parts of the engine (detectors,
feedback, penalty counts) are computable.
-/

/-- `COMMON_WORDS` from the source: the fixed 13-entry common-word set. -/
def COMMON_WORDS : List (List Char) :=
  ["password".toList, "admin".toList, "welcome".toList, "qwerty".toList,
   "iloveyou".toList, "letmein".toList, "login".toList, "user".toList,
   "test".toList, "secret".toList, "dragon".toList, "football".toList,
   "monkey".toList]

/-- `LEET_MAP` from the source, as a character translation:
`@→a, $→s, !→i, 1→l, 0→o, 3→e, 5→s, 7→t`, all other characters unchanged. -/
def leetChar (c : Char) : Char :=
  if c = '@' then 'a'
  else if c = '$' then 's'
  else if c = '!' then 'i'
  else if c = '1' then 'l'
  else if c = '0' then 'o'
  else if c = '3' then 'e'
  else if c = '5' then 's'
  else if c = '7' then 't'
  else c

/-- First reference alphabet: the lowercase Latin run. -/
def SEQ_LOWER : List Char := "abcdefghijklmnopqrstuvwxyz".toList

/-- Second reference alphabet: the uppercase Latin run. -/
def SEQ_UPPER : List Char := "ABCDEFGHIJKLMNOPQRSTUVWXYZ".toList

/-- Third reference alphabet: the digit run. -/
def SEQ_DIGITS : List Char := "0123456789".toList

/-- Fourth reference alphabet: the QWERTY keyboard row. -/
def SEQ_QWERTY : List Char := "qwertyuiopasdfghjklzxcvbnm".toList

/-- `SEQUENCES` from the source: the fixed ordered list of 4 reference
alphabets used by the sequence detector. -/
def SEQUENCES : List (List Char) := [SEQ_LOWER, SEQ_UPPER, SEQ_DIGITS, SEQ_QWERTY]

/-- `any(c.islower() for c in p)` (ASCII semantics). -/
def _has_lower (p : List Char) : Bool := p.any Char.isLower

/-- `any(c.isupper() for c in p)` (ASCII semantics). -/
def _has_upper (p : List Char) : Bool := p.any Char.isUpper

/-- `any(c.isdigit() for c in p)` (ASCII semantics). -/
def _has_digit (p : List Char) : Bool := p.any Char.isDigit

/-- `any(not c.isalnum() for c in p)` (ASCII semantics). -/
def _has_symbol (p : List Char) : Bool := p.any (fun c => !c.isAlphanum)

/-- `_char_pool_size` from the source: sum of the class alphabet sizes
(26 lowercase, 26 uppercase, 10 digits, 33 symbols), floored at 1. -/
def _char_pool_size (p : List Char) : ℕ :=
  max ((if _has_lower p then 26 else 0) + (if _has_upper p then 26 else 0) +
       (if _has_digit p then 10 else 0) + (if _has_symbol p then 33 else 0)) 1

/-- `needle` is a prefix of `hay` (helper for Python's substring test). -/
def listPfx : List Char → List Char → Bool
  | [], _ => true
  | _ :: _, [] => false
  | a :: as, b :: bs => a == b && listPfx as bs

/-- Python's `needle in hay` contiguous-substring test. -/
def substrB (needle : List Char) : List Char → Bool
  | [] => listPfx needle []
  | b :: bs => listPfx needle (b :: bs) || substrB needle bs

/-- The length-3 sliding windows of a list: `seq[i:i+3]` for
`i in range(len(seq)-2)`. -/
def windows3 : List Char → List (List Char)
  | a :: b :: c :: rest => [a, b, c] :: windows3 (b :: c :: rest)
  | _ => []

/-- Contribution of one 3-character alphabet window to the sequence count:
one increment if the chunk occurs in the lowercased password and one more,
independently, if its reverse does (the two `if` statements of the inner
loop of `_find_sequences`). -/
def seqContribution (lower chunk : List Char) : ℕ :=
  (if substrB chunk lower then 1 else 0) +
  (if substrB chunk.reverse lower then 1 else 0)

/-- Matches scored against one reference alphabet: the inner loop of
`_find_sequences` for a single element of `SEQUENCES`. -/
def alphaCount (p seq : List Char) : ℕ :=
  ((windows3 seq).map (seqContribution (p.map Char.toLower))).sum

/-- `_find_sequences` from the source: total number of window matches over
the 4 reference alphabets, against the lowercased password. -/
def _find_sequences (p : List Char) : ℕ :=
  (SEQUENCES.map (alphaCount p)).sum

/-- `re.search(r"(.)\1{2,}", p)`: some character (not a newline, which `.`
does not match) occurs at least 3 times consecutively. -/
def runCheck : List Char → Bool
  | a :: b :: c :: rest =>
      ((a != '\n') && (a == b) && (a == c)) || runCheck (b :: c :: rest)
  | _ => false

/-- `re.search(r"(..)\1{1,}", p)`: some 2-character block (newline-free) is
immediately repeated. -/
def bigramCheck : List Char → Bool
  | a :: b :: c :: d :: rest =>
      ((a != '\n') && (b != '\n') && (a == c) && (b == d)) ||
        bigramCheck (b :: c :: d :: rest)
  | _ => false

/-- `re.search(r"(...)\1{1,}", p)`: some 3-character block (newline-free) is
immediately repeated. -/
def trigramCheck : List Char → Bool
  | a :: b :: c :: d :: e :: f :: rest =>
      ((a != '\n') && (b != '\n') && (c != '\n') &&
       (a == d) && (b == e) && (c == f)) ||
        trigramCheck (b :: c :: d :: e :: f :: rest)
  | _ => false

/-- `_repetition_penalty` from the source: one point for each of the three
regex checks (runs, repeated bigrams, repeated trigrams) that fires on the
raw, un-lowercased password. -/
def _repetition_penalty (p : List Char) : ℕ :=
  (if runCheck p then 1 else 0) + (if bigramCheck p then 1 else 0) +
    (if trigramCheck p then 1 else 0)

/-- `_dictionary_hits` from the source: one point per common word occurring
in the lowercased password or in its leetspeak-normalized form. -/
def _dictionary_hits (p : List Char) : ℕ :=
  (COMMON_WORDS.filter fun w =>
    substrB w (p.map Char.toLower) ||
      substrB w ((p.map Char.toLower).map leetChar)).length

/-- `estimate_entropy_bits` from the source: `len(p) * math.log2(pool)`. -/
noncomputable def estimate_entropy_bits (p : List Char) : ℝ :=
  (p.length : ℝ) * Real.logb 2 (_char_pool_size p)

/-- Round-half-to-even on a real number (the rounding used by Python's
fixed-point string formatting). -/
noncomputable def roundHE (x : ℝ) : ℤ :=
  if Int.fract x < 1/2 then ⌊x⌋
  else if 1/2 < Int.fract x then ⌊x⌋ + 1
  else if Even ⌊x⌋ then ⌊x⌋ else ⌊x⌋ + 1

/-- Left-pad a two-digit fractional part with a zero. -/
def pad2 (n : ℕ) : String := if n < 10 then "0" ++ toString n else toString n

/-- Render a signed count of hundredths as a decimal numeral with exactly
two digits after the point. -/
def renderCenti (n : ℤ) : String :=
  (if n < 0 then "-" else "") ++ toString (n.natAbs / 100) ++ "." ++ pad2 (n.natAbs % 100)

/-- Python's `f"{x:.2f}"` on the exact real value `x`. -/
noncomputable def formatFixed2 (x : ℝ) : String := renderCenti (roundHE (x * 100))

/-- The ordered unit table of the humanizer inside `crack_time_estimates`:
`[("sec",1), ("min",60), ("hr",3600), ("day",86400), ("yr",31557600),
("century",3155760000)]`. -/
noncomputable def humanizeUnits : List (String × ℝ) :=
  [("sec", 1), ("min", 60), ("hr", 3600), ("day", 86400),
   ("yr", 31557600), ("century", 3155760000)]

/-- The loop of `humanize`: return at the first unit whose span passes
`s < span*60` (or unconditionally at `"century"`); the trailing
`f"{s:.2f} sec"` return is the fallthrough after the loop. -/
noncomputable def humanizeAux : List (String × ℝ) → ℝ → String
  | [], s => formatFixed2 s ++ " sec"
  | (name, span) :: rest, s =>
      if s < span * 60 ∨ name = "century" then
        formatFixed2 (s / span) ++ " " ++ name
      else humanizeAux rest s

/-- `humanize` from the source (the inner function of
`crack_time_estimates`). -/
noncomputable def humanize (s : ℝ) : String := humanizeAux humanizeUnits s

/-- `expected_guesses = 2 ** max(bits - 1, 0)` from the source. -/
noncomputable def expected_guesses (bits : ℝ) : ℝ := (2 : ℝ) ^ max (bits - 1) 0

/-- The two humanized duration strings returned by `crack_time_estimates`. -/
structure CrackTimes where
  offline_fast : String
  online_slow : String
deriving DecidableEq

/-- `crack_time_estimates` from the source, at its (only ever used) default
rate `guesses_per_sec = 1e10`: `offline_fast` humanizes
`expected_guesses / 1e10` seconds, `online_slow` humanizes
`expected_guesses / 100`. -/
noncomputable def crack_time_estimates (bits : ℝ) : CrackTimes :=
  let g := expected_guesses bits
  { offline_fast := humanize (g / 1e10), online_slow := humanize (g / 100) }

/-- The `penalty_detail` mapping of a non-empty analysis: the three raw
detector counts. -/
structure PenaltyDetail where
  sequences : ℕ
  repeats : ℕ
  dictionary_hits : ℕ
deriving DecidableEq

/-- The dictionary returned by `score_password`. The empty-password branch
of the source returns a dictionary without the `penalty_detail` key, hence
that field is an `Option`. -/
structure AnalysisResult where
  score : ℤ
  label : String
  bits : ℝ
  penalty_detail : Option PenaltyDetail
  feedback : List String
  estimates : CrackTimes

/-- The length band of the aggregator:
`<6→0, <8→10, <12→20, <16→30, else 40`. -/
def length_score (L : ℕ) : ℕ :=
  if L < 6 then 0 else if L < 8 then 10 else if L < 12 then 20
  else if L < 16 then 30 else 40

/-- `sum([_has_lower(p), _has_upper(p), _has_digit(p), _has_symbol(p)])`. -/
def varietiesCount (p : List Char) : ℕ :=
  (if _has_lower p then 1 else 0) + (if _has_upper p then 1 else 0) +
    (if _has_digit p then 1 else 0) + (if _has_symbol p then 1 else 0)

/-- The variety lookup `[0, 10, 20, 30, 35][varieties]`. -/
def variety_score (v : ℕ) : ℕ := [0, 10, 20, 30, 35].getD v 0

/-- `min(int(bits / 4), 25)` from the source. `int()` truncates toward
zero and `bits ≥ 0` always holds (the pool is at least 1), so the
truncation is the floor. -/
noncomputable def entropy_bonus (p : List Char) : ℤ :=
  min ⌊estimate_entropy_bits p / 4⌋ 25

/-- The raw (pre-penalty) score: length band + variety lookup + entropy
bonus, the running `score` right before the penalties are applied. -/
noncomputable def raw_score (p : List Char) : ℤ :=
  (length_score p.length : ℤ) + (variety_score (varietiesCount p) : ℤ) +
    entropy_bonus p

/-- `penalty = seqs*8 + reps*8 + dicts*12` from the source. -/
def penaltyOf (p : List Char) : ℕ :=
  _find_sequences p * 8 + _repetition_penalty p * 8 + _dictionary_hits p * 12

/-- `score = max(0, min(100, score - penalty))` from the source. -/
noncomputable def final_score (p : List Char) : ℤ :=
  max 0 (min 100 (raw_score p - (penaltyOf p : ℤ)))

/-- The label conditional of the source: fixed thresholds on the final
score. -/
noncomputable def label_of (p : List Char) : String :=
  if final_score p < 20 then "Very Weak"
  else if final_score p < 40 then "Weak"
  else if final_score p < 60 then "Moderate"
  else if final_score p < 80 then "Strong"
  else "Excellent"

/-- The feedback list of the non-empty path, in the order the source
appends: the length message (inside the `L < 6` band), then after the
penalty computation the sequence, repetition and dictionary warnings, then
one message per missing character class (uppercase, lowercase, digit,
symbol). -/
def feedback_list (p : List Char) : List String :=
  (if p.length < 6 then ["Use at least 8–12 characters."] else []) ++
  (if _find_sequences p ≠ 0 then
    ["Avoid sequential patterns (e.g., abc, 123, qwerty)."] else []) ++
  (if _repetition_penalty p ≠ 0 then
    ["Avoid repeated patterns like aaa or abcabc."] else []) ++
  (if _dictionary_hits p ≠ 0 then
    ["Avoid common or leetspeak words (e.g., 'p@ssw0rd')."] else []) ++
  (if _has_upper p then [] else ["Add uppercase letters."]) ++
  (if _has_lower p then [] else ["Add lowercase letters."]) ++
  (if _has_digit p then [] else ["Add digits."]) ++
  (if _has_symbol p then [] else ["Add symbols (e.g., !@#$)."])

/-- `round(bits, 2)` from the source (display rounding of the entropy). -/
noncomputable def round2 (x : ℝ) : ℝ := (roundHE (x * 100) : ℝ) / 100

/-- `score_password` from the source: the public entry point. The empty
branch returns the fixed dictionary (with no `penalty_detail` key); the
non-empty branch assembles score, label, rounded bits, penalty detail,
feedback and crack-time estimates. -/
noncomputable def score_password (p : List Char) : AnalysisResult :=
  if p = [] then
    { score := 0, label := "Very Weak", bits := 0,
      penalty_detail := none,
      feedback := ["Password is empty."],
      estimates := crack_time_estimates 0 }
  else
    { score := final_score p,
      label := label_of p,
      bits := round2 (estimate_entropy_bits p),
      penalty_detail := some ⟨_find_sequences p, _repetition_penalty p,
        _dictionary_hits p⟩,
      feedback := feedback_list p,
      estimates := crack_time_estimates (estimate_entropy_bits p) }

/-- The first unit of the given table satisfying `s < 60×span`, with the
`century` unit as the fallback when none qualifies. -/
noncomputable def specFirstUnit : List (String × ℝ) → ℝ → String × ℝ
  | [], _ => ("century", 3155760000)
  | u :: rest, s => if s < u.2 * 60 then u else specFirstUnit rest s

/-- The spec's selection rule for the humanizer: the first (smallest) unit
of the ordered table satisfying `s < 60×span`, falling back to `century`
if none qualify, formatting `s` divided by the selected span to 2 decimal
places followed by the unit name. -/
noncomputable def humanizeSpecFirst (s : ℝ) : String :=
  formatFixed2 (s / (specFirstUnit humanizeUnits s).2) ++ " " ++
    (specFirstUnit humanizeUnits s).1

/-- The claim's selection rule taken at its word: the largest unit of the
ordered table satisfying `s < 60×span` (scan the table from the largest
span down), with `century` as fallback. -/
noncomputable def humanizeSpecLargest (s : ℝ) : String :=
  formatFixed2 (s / (specFirstUnit humanizeUnits.reverse s).2) ++ " " ++
    (specFirstUnit humanizeUnits.reverse s).1

lemma char_le_iff (a b : Char) : a ≤ b ↔ a.toNat ≤ b.toNat := by
  rw [Char.le_def, UInt32.le_def, BitVec.le_def]; rfl

lemma toLower_not_upper (c : Char) : ¬('A' ≤ c.toLower ∧ c.toLower ≤ 'Z') := by
  rw [char_le_iff, char_le_iff]
  show ¬(65 ≤ c.toLower.toNat ∧ c.toLower.toNat ≤ 90)
  unfold Char.toLower
  by_cases h : c.toNat ≥ 65 ∧ c.toNat ≤ 90
  · rw [if_pos h]
    obtain ⟨h1, h2⟩ := h
    set n := c.toNat with hn
    interval_cases n <;> decide
  · rw [if_neg h]
    omega

lemma listPfx_mem (n : List Char) :
    ∀ h : List Char, listPfx n h = true → ∀ x ∈ n, x ∈ h := by
  induction n with
  | nil => intro h _ x hx; cases hx
  | cons a as ih =>
    intro h hp x hx
    cases h with
    | nil => simp [listPfx] at hp
    | cons b bs =>
      rw [listPfx, Bool.and_eq_true, beq_iff_eq] at hp
      obtain ⟨hab, hrest⟩ := hp
      rcases List.mem_cons.mp hx with rfl | hx'
      · rw [hab]; exact List.mem_cons_self b bs
      · exact List.mem_cons_of_mem _ (ih bs hrest x hx')

lemma substrB_mem (n : List Char) :
    ∀ h : List Char, substrB n h = true → ∀ x ∈ n, x ∈ h := by
  intro h
  induction h with
  | nil => intro hp x hx; exact listPfx_mem n [] hp x hx
  | cons b bs ih =>
    intro hp x hx
    rw [substrB, Bool.or_eq_true] at hp
    rcases hp with hp | hp
    · exact listPfx_mem n (b :: bs) hp x hx
    · exact List.mem_cons_of_mem _ (ih hp x hx)

lemma windows3_shape (s : List Char) :
    ∀ w ∈ windows3 s, ∃ a b c, w = [a, b, c] ∧ a ∈ s ∧ b ∈ s ∧ c ∈ s := by
  induction s with
  | nil => intro w hw; simp [windows3] at hw
  | cons x t ih =>
    cases t with
    | nil => intro w hw; simp [windows3] at hw
    | cons y u =>
      cases u with
      | nil => intro w hw; simp [windows3] at hw
      | cons z rest =>
        intro w hw
        rw [windows3] at hw
        rcases List.mem_cons.mp hw with rfl | hw'
        · exact ⟨x, y, z, rfl, by simp, by simp, by simp⟩
        · obtain ⟨a, b, c, rfl, ha, hb, hc⟩ := ih w hw'
          exact ⟨a, b, c, rfl, List.mem_cons_of_mem _ ha,
            List.mem_cons_of_mem _ hb, List.mem_cons_of_mem _ hc⟩

lemma substr_lower_false (p w : List Char) (x : Char) (hx : x ∈ w)
    (hup : 'A' ≤ x ∧ x ≤ 'Z') : substrB w (p.map Char.toLower) = false := by
  by_contra hcon
  rw [Bool.not_eq_false] at hcon
  have hmem := substrB_mem w _ hcon x hx
  obtain ⟨y, _, hy⟩ := List.mem_map.mp hmem
  exact toLower_not_upper y (by rw [hy]; exact hup)

lemma score_password_score (p : List Char) (hp : p ≠ []) :
    (score_password p).score = final_score p := by
  unfold score_password; rw [if_neg hp]

lemma score_password_label (p : List Char) (hp : p ≠ []) :
    (score_password p).label = label_of p := by
  unfold score_password; rw [if_neg hp]

lemma score_password_feedback (p : List Char) (hp : p ≠ []) :
    (score_password p).feedback = feedback_list p := by
  unfold score_password; rw [if_neg hp]

/-- Claim C1: for every non-empty password, the final score equals
`max(0, min(100, rawScore − (sequences×8 + repetitions×8 +
dictionaryHits×12)))`, so `0 ≤ score ≤ 100`, and the label is determined
solely by the final score via the fixed thresholds `<20` Very Weak, `<40`
Weak, `<60` Moderate, `<80` Strong, else Excellent. -/
theorem C1_final_score_clamp_and_label (p : List Char) (hp : p ≠ []) :
    (score_password p).score =
      max 0 (min 100 (raw_score p -
        ((_find_sequences p : ℤ) * 8 + (_repetition_penalty p : ℤ) * 8 +
          (_dictionary_hits p : ℤ) * 12))) ∧
    0 ≤ (score_password p).score ∧ (score_password p).score ≤ 100 ∧
    (score_password p).label =
      (if (score_password p).score < 20 then "Very Weak"
       else if (score_password p).score < 40 then "Weak"
       else if (score_password p).score < 60 then "Moderate"
       else if (score_password p).score < 80 then "Strong"
       else "Excellent") := by
  have hpen : ((penaltyOf p : ℤ)) =
      (_find_sequences p : ℤ) * 8 + (_repetition_penalty p : ℤ) * 8 +
        (_dictionary_hits p : ℤ) * 12 := by
    unfold penaltyOf; push_cast; ring
  refine ⟨?_, ?_, ?_, ?_⟩
  · rw [score_password_score p hp, final_score, hpen]
  · rw [score_password_score p hp, final_score]
    exact le_max_left 0 _
  · rw [score_password_score p hp, final_score]
    exact max_le (by norm_num) (min_le_left 100 _)
  · rw [score_password_score p hp, score_password_label p hp]
    rfl

/-- Witness for C1 at the concrete password `"a"`. -/
theorem C1_witness :
    (['a'] : List Char) ≠ [] ∧ 0 ≤ (score_password ['a']).score :=
  ⟨by decide, (C1_final_score_clamp_and_label ['a'] (by decide)).2.1⟩

/-- Claim C2: for every non-empty password, the raw (pre-penalty) score is
the sum of the length band (`<6→0, 6–7→10, 8–11→20, 12–15→30, ≥16→40`),
the variety lookup `{0→0, 1→10, 2→20, 3→30, 4→35}` applied to the number
of present character classes, and the entropy bonus
`min(floor(bits/4), 25)`. -/
theorem C2_raw_score_components (p : List Char) (hp : p ≠ []) :
    raw_score p =
      (if p.length < 6 then 0
       else if p.length ≤ 7 then 10
       else if p.length ≤ 11 then 20
       else if p.length ≤ 15 then 30
       else (40 : ℤ)) +
      (if varietiesCount p = 0 then 0
       else if varietiesCount p = 1 then 10
       else if varietiesCount p = 2 then 20
       else if varietiesCount p = 3 then 30
       else (35 : ℤ)) +
      min ⌊estimate_entropy_bits p / 4⌋ 25 := by
  have h1 : ((length_score p.length : ℤ)) =
      (if p.length < 6 then 0
       else if p.length ≤ 7 then 10
       else if p.length ≤ 11 then 20
       else if p.length ≤ 15 then 30
       else (40 : ℤ)) := by
    unfold length_score; split_ifs <;> omega
  have hv4 : varietiesCount p ≤ 4 := by
    unfold varietiesCount; split_ifs <;> omega
  have h2 : ((variety_score (varietiesCount p) : ℤ)) =
      (if varietiesCount p = 0 then 0
       else if varietiesCount p = 1 then 10
       else if varietiesCount p = 2 then 20
       else if varietiesCount p = 3 then 30
       else (35 : ℤ)) := by
    generalize hgen : varietiesCount p = v at hv4 ⊢
    interval_cases v <;> decide
  unfold raw_score entropy_bonus
  rw [h1, h2]

/-- Witness for C2 at the concrete password `"a"`. -/
theorem C2_witness :
    (['a'] : List Char) ≠ [] ∧
    raw_score ['a'] =
      (if (['a'] : List Char).length < 6 then 0
       else if (['a'] : List Char).length ≤ 7 then 10
       else if (['a'] : List Char).length ≤ 11 then 20
       else if (['a'] : List Char).length ≤ 15 then 30
       else (40 : ℤ)) +
      (if varietiesCount ['a'] = 0 then 0
       else if varietiesCount ['a'] = 1 then 10
       else if varietiesCount ['a'] = 2 then 20
       else if varietiesCount ['a'] = 3 then 30
       else (35 : ℤ)) +
      min ⌊estimate_entropy_bits ['a'] / 4⌋ 25 :=
  ⟨by decide, C2_raw_score_components ['a'] (by decide)⟩

/-- Counterexample to claim C3: the empty-password branch of
`score_password` returns a result with no `penaltyDetail` mapping at all
(the source's empty-branch dictionary omits the `penalty_detail` key). -/
theorem C3_counterexample : (score_password []).penalty_detail = none := rfl

/-- Claim C3 as amended: for the empty-string input the entry point
returns score 0, label "Very Weak", bits 0.0, exactly the single feedback
item, crack-time estimates computed for zero bits — but, unlike non-empty
results, no `penaltyDetail` mapping (the key is absent). -/
theorem C3_empty_result_amended :
    (score_password []).score = 0 ∧
    (score_password []).label = "Very Weak" ∧
    (score_password []).bits = 0 ∧
    (score_password []).feedback = ["Password is empty."] ∧
    (score_password []).estimates = crack_time_estimates 0 ∧
    (score_password []).penalty_detail = none :=
  ⟨rfl, rfl, rfl, rfl, rfl, rfl⟩

/-- Counterexample to claim C5: the password `"abc"` contains `"abc"`, yet
the corresponding window `"ABC"` of the uppercase reference alphabet
contributes nothing — only the lowercase alphabet's window matches, and
the total sequence count is 1, not 2. -/
theorem C5_counterexample :
    ['A', 'B', 'C'] ∈ windows3 SEQ_UPPER ∧
    substrB ['a', 'b', 'c'] (['a', 'b', 'c'].map Char.toLower) = true ∧
    seqContribution (['a', 'b', 'c'].map Char.toLower) ['A', 'B', 'C'] = 0 ∧
    _find_sequences ['a', 'b', 'c'] = 1 := by decide

/-- Claim C5 as amended: the sequence detector lowercases the password but
not the alphabet chunks, so windows of the uppercase reference alphabet
can never match any password; case-insensitivity in the password holds
only through the lowercase-alphabet (and digit/QWERTY) windows — e.g. a
password containing `"abc"` in any letter case matches the lowercase
alphabet's window. -/
theorem C5_case_handling_amended (p : List Char) :
    alphaCount p SEQ_UPPER = 0 ∧
    (substrB ['a', 'b', 'c'] (p.map Char.toLower) = true →
      1 ≤ alphaCount p SEQ_LOWER) := by
  constructor
  · unfold alphaCount
    apply List.sum_eq_zero
    intro n hn
    obtain ⟨w, hw, rfl⟩ := List.mem_map.mp hn
    obtain ⟨a, b, c, rfl, ha, _, _⟩ := windows3_shape SEQ_UPPER w hw
    have hupper : ∀ x ∈ SEQ_UPPER, 'A' ≤ x ∧ x ≤ 'Z' := by decide
    have h1 : substrB [a, b, c] (p.map Char.toLower) = false :=
      substr_lower_false p [a, b, c] a (by simp) (hupper a ha)
    have h2 : substrB [a, b, c].reverse (p.map Char.toLower) = false :=
      substr_lower_false p [a, b, c].reverse a (by simp) (hupper a ha)
    unfold seqContribution
    rw [h1, h2]
    rfl
  · intro hsub
    unfold alphaCount
    have hone : 1 ≤ seqContribution (p.map Char.toLower) ['a', 'b', 'c'] := by
      unfold seqContribution
      rw [hsub]
      exact Nat.le_add_right 1 _
    exact le_trans hone
      (List.le_sum_of_mem (List.mem_map_of_mem _ (by decide)))

/-- Witness for C5 at the concrete password `"ABC"`. -/
theorem C5_witness :
    substrB ['a', 'b', 'c'] (['A', 'B', 'C'].map Char.toLower) = true ∧
    1 ≤ alphaCount ['A', 'B', 'C'] SEQ_LOWER ∧
    alphaCount ['A', 'B', 'C'] SEQ_UPPER = 0 :=
  ⟨by decide, (C5_case_handling_amended ['A', 'B', 'C']).2 (by decide),
    (C5_case_handling_amended ['A', 'B', 'C']).1⟩

/-- Counterexample to claim C6: the password `"abccba"` contains both
`"abc"` and its reverse `"cba"`, and the single alphabet window `"abc"`
then contributes 2 to the count, not at most 1. -/
theorem C6_counterexample :
    substrB ['a', 'b', 'c'] (['a', 'b', 'c', 'c', 'b', 'a'].map Char.toLower) = true ∧
    substrB ['a', 'b', 'c'].reverse
      (['a', 'b', 'c', 'c', 'b', 'a'].map Char.toLower) = true ∧
    seqContribution (['a', 'b', 'c', 'c', 'b', 'a'].map Char.toLower)
      ['a', 'b', 'c'] = 2 := by decide

/-- Claim C6 as amended: each chunk/alphabet window combination contributes
at most 2 to the count — one increment if the chunk appears and one more,
independently, if its reverse appears; when both appear the window
contributes exactly 2. -/
theorem C6_window_contribution_amended (p chunk : List Char) :
    seqContribution (p.map Char.toLower) chunk ≤ 2 ∧
    (substrB chunk (p.map Char.toLower) = true →
      substrB chunk.reverse (p.map Char.toLower) = true →
      seqContribution (p.map Char.toLower) chunk = 2) := by
  unfold seqContribution
  constructor
  · split_ifs <;> norm_num
  · intro h1 h2
    rw [h1, h2]
    rfl

/-- Witness for C6 at the concrete password `"abccba"` and chunk `"abc"`. -/
theorem C6_witness :
    seqContribution (['a', 'b', 'c', 'c', 'b', 'a'].map Char.toLower)
      ['a', 'b', 'c'] ≤ 2 ∧
    seqContribution (['a', 'b', 'c', 'c', 'b', 'a'].map Char.toLower)
      ['a', 'b', 'c'] = 2 :=
  ⟨(C6_window_contribution_amended ['a', 'b', 'c', 'c', 'b', 'a'] ['a', 'b', 'c']).1,
    (C6_window_contribution_amended ['a', 'b', 'c', 'c', 'b', 'a'] ['a', 'b', 'c']).2
      (by decide) (by decide)⟩

/-- Counterexample to claim C8: for the password `"abc"` the sequence
detector fires, yet the first feedback element is the length message
appended inside the `length < 6` band, not the sequence warning. -/
theorem C8_feedback_order_counterexample :
    0 < _find_sequences ['a', 'b', 'c'] ∧
    (score_password ['a', 'b', 'c']).feedback.head? =
      some "Use at least 8–12 characters." ∧
    ("Use at least 8–12 characters." : String) ≠
      "Avoid sequential patterns (e.g., abc, 123, qwerty)." := by
  refine ⟨by decide, ?_, by decide⟩
  rw [score_password_feedback ['a', 'b', 'c'] (by decide)]
  decide

/-- Claim C8 as amended: for every non-empty password the feedback list is
assembled in the fixed order: length message (iff length < 6) first, then
sequence warning (iff sequences > 0), repetition warning (iff
repetitions > 0), dictionary warning (iff dictionaryHits > 0), then one
message per missing character class in the order uppercase, lowercase,
digit, symbol; consequently whenever sequences > 0 and length ≥ 6 the
sequence warning is the first element. -/
theorem C8_feedback_order_amended (p : List Char) (hp : p ≠ []) :
    (score_password p).feedback =
      (if p.length < 6 then ["Use at least 8–12 characters."] else []) ++
      (if 0 < _find_sequences p then
        ["Avoid sequential patterns (e.g., abc, 123, qwerty)."] else []) ++
      (if 0 < _repetition_penalty p then
        ["Avoid repeated patterns like aaa or abcabc."] else []) ++
      (if 0 < _dictionary_hits p then
        ["Avoid common or leetspeak words (e.g., 'p@ssw0rd')."] else []) ++
      (if _has_upper p then [] else ["Add uppercase letters."]) ++
      (if _has_lower p then [] else ["Add lowercase letters."]) ++
      (if _has_digit p then [] else ["Add digits."]) ++
      (if _has_symbol p then [] else ["Add symbols (e.g., !@#$)."]) ∧
    (6 ≤ p.length → 0 < _find_sequences p →
      (score_password p).feedback.head? =
        some "Avoid sequential patterns (e.g., abc, 123, qwerty).") := by
  have hfb := score_password_feedback p hp
  constructor
  · rw [hfb]
    unfold feedback_list
    simp only [Nat.pos_iff_ne_zero]
  · intro h6 hseq
    rw [hfb]
    unfold feedback_list
    rw [if_neg (by omega), if_pos (by omega)]
    simp

/-- Witness for C8 at the concrete password `"abcdefgh"`. -/
theorem C8_witness :
    6 ≤ (['a', 'b', 'c', 'd', 'e', 'f', 'g', 'h'] : List Char).length ∧
    0 < _find_sequences ['a', 'b', 'c', 'd', 'e', 'f', 'g', 'h'] ∧
    (score_password ['a', 'b', 'c', 'd', 'e', 'f', 'g', 'h']).feedback.head? =
      some "Avoid sequential patterns (e.g., abc, 123, qwerty)." :=
  ⟨by decide, by decide,
    (C8_feedback_order_amended ['a', 'b', 'c', 'd', 'e', 'f', 'g', 'h']
      (by decide)).2 (by decide) (by decide)⟩

/-- Claim C9: `estimate_entropy_bits` equals `length × log2(pool)` with the
pool the sum of 26/26/10/33 for the present character classes, floored at
1; consequently, for two passwords with the same set of present character
classes, the longer (or equal) one has greater or equal bits. -/
theorem C9_entropy_formula_monotone (p q : List Char) :
    estimate_entropy_bits p =
      (p.length : ℝ) * Real.logb 2
        ((max ((if _has_lower p then 26 else 0) + (if _has_upper p then 26 else 0) +
               (if _has_digit p then 10 else 0) + (if _has_symbol p then 33 else 0))
           1 : ℕ)) ∧
    (_has_lower p = _has_lower q → _has_upper p = _has_upper q →
     _has_digit p = _has_digit q → _has_symbol p = _has_symbol q →
     p.length ≤ q.length →
     estimate_entropy_bits p ≤ estimate_entropy_bits q) := by
  constructor
  · rfl
  · intro h1 h2 h3 h4 h5
    have hpool : _char_pool_size p = _char_pool_size q := by
      unfold _char_pool_size
      rw [h1, h2, h3, h4]
    unfold estimate_entropy_bits
    rw [hpool]
    apply mul_le_mul_of_nonneg_right
    · exact_mod_cast h5
    · apply Real.logb_nonneg (by norm_num)
      have hone : 1 ≤ _char_pool_size q := by
        unfold _char_pool_size
        exact le_max_right _ 1
      exact_mod_cast hone

/-- Witness for C9 at the concrete passwords `"a"` and `"ab"`. -/
theorem C9_witness :
    _has_lower ['a'] = _has_lower ['a', 'b'] ∧
    estimate_entropy_bits ['a'] ≤ estimate_entropy_bits ['a', 'b'] :=
  ⟨by decide,
    (C9_entropy_formula_monotone ['a'] ['a', 'b']).2 (by decide) (by decide)
      (by decide) (by decide) (by decide)⟩

/-- Claim C10: the repetition detector works on the raw, un-lowercased
password: the run check fires only when some (non-newline) character
occurs three times consecutively in exact case — `"aAa"` does not fire it
while `"aaa"` does — and the bigram/trigram checks fire only when the
repeated block recurs in exact case. -/
theorem C10_repetition_case_sensitive :
    (∀ p : List Char, runCheck p = true →
      ∃ c pre post, p = pre ++ c :: c :: c :: post ∧ c ≠ '\n') ∧
    (∀ p : List Char, bigramCheck p = true →
      ∃ a b pre post, p = pre ++ a :: b :: a :: b :: post) ∧
    (∀ p : List Char, trigramCheck p = true →
      ∃ a b c pre post, p = pre ++ a :: b :: c :: a :: b :: c :: post) ∧
    runCheck ['a', 'A', 'a'] = false ∧ runCheck ['a', 'a', 'a'] = true ∧
    _repetition_penalty ['a', 'A', 'a'] = 0 ∧
    _repetition_penalty ['a', 'a', 'a'] = 1 := by
  refine ⟨?_, ?_, ?_, by decide, by decide, by decide, by decide⟩
  · intro p
    induction p with
    | nil => simp [runCheck]
    | cons a t ih =>
      cases t with
      | nil => simp [runCheck]
      | cons b u =>
        cases u with
        | nil => simp [runCheck]
        | cons c rest =>
          intro h
          rw [runCheck, Bool.or_eq_true] at h
          rcases h with h | h
          · rw [Bool.and_eq_true, Bool.and_eq_true, bne_iff_ne, beq_iff_eq,
              beq_iff_eq] at h
            obtain ⟨⟨hne, hab⟩, hac⟩ := h
            exact ⟨a, [], rest, by rw [← hab, ← hac]; rfl, hne⟩
          · obtain ⟨cc, pre, post, heq, hne⟩ := ih h
            exact ⟨cc, a :: pre, post, by rw [heq]; rfl, hne⟩
  · intro p
    induction p with
    | nil => simp [bigramCheck]
    | cons a t ih =>
      cases t with
      | nil => simp [bigramCheck]
      | cons b u =>
        cases u with
        | nil => simp [bigramCheck]
        | cons c v =>
          cases v with
          | nil => simp [bigramCheck]
          | cons d rest =>
            intro h
            rw [bigramCheck, Bool.or_eq_true] at h
            rcases h with h | h
            · rw [Bool.and_eq_true, Bool.and_eq_true, Bool.and_eq_true,
                beq_iff_eq, beq_iff_eq] at h
              obtain ⟨⟨⟨-, -⟩, hac⟩, hbd⟩ := h
              exact ⟨a, b, [], rest, by rw [← hac, ← hbd]; rfl⟩
            · obtain ⟨x, y, pre, post, heq⟩ := ih h
              exact ⟨x, y, a :: pre, post, by rw [heq]; rfl⟩
  · intro p
    induction p with
    | nil => simp [trigramCheck]
    | cons a t ih =>
      cases t with
      | nil => simp [trigramCheck]
      | cons b u =>
        cases u with
        | nil => simp [trigramCheck]
        | cons c v =>
          cases v with
          | nil => simp [trigramCheck]
          | cons d w =>
            cases w with
            | nil => simp [trigramCheck]
            | cons e z =>
              cases z with
              | nil => simp [trigramCheck]
              | cons f rest =>
                intro h
                rw [trigramCheck, Bool.or_eq_true] at h
                rcases h with h | h
                · rw [Bool.and_eq_true, Bool.and_eq_true, Bool.and_eq_true,
                    Bool.and_eq_true, Bool.and_eq_true, beq_iff_eq,
                    beq_iff_eq, beq_iff_eq] at h
                  obtain ⟨⟨⟨⟨⟨-, -⟩, -⟩, had⟩, hbe⟩, hcf⟩ := h
                  exact ⟨a, b, c, [], rest, by rw [← had, ← hbe, ← hcf]; rfl⟩
                · obtain ⟨x, y, zz, pre, post, heq⟩ := ih h
                  exact ⟨x, y, zz, a :: pre, post, by rw [heq]; rfl⟩

/-- Witness for C10 at the concrete password `"aaa"`. -/
theorem C10_witness :
    runCheck ['a', 'a', 'a'] = true ∧
    ∃ c pre post, (['a', 'a', 'a'] : List Char) = pre ++ c :: c :: c :: post ∧
      c ≠ '\n' :=
  ⟨by decide, C10_repetition_case_sensitive.1 ['a', 'a', 'a'] (by decide)⟩

lemma roundHE_eq_floor (x : ℝ) (h : Int.fract x < 1/2) : roundHE x = ⌊x⌋ :=
  if_pos h

lemma formatFixed2_zero_small (x : ℝ) (h0 : 0 ≤ x) (h1 : x < 1/200) :
    formatFixed2 x = "0.00" := by
  have hf : ⌊x * 100⌋ = 0 :=
    Int.floor_eq_zero_iff.mpr (Set.mem_Ico.mpr ⟨by linarith, by linarith⟩)
  have hfr : Int.fract (x * 100) < 1/2 := by
    rw [Int.fract, hf]
    push_cast
    linarith
  unfold formatFixed2
  rw [roundHE_eq_floor _ hfr, hf]
  rfl

lemma formatFixed2_of_cast (x : ℝ) (n : ℤ) (h : x * 100 = (n : ℝ)) :
    formatFixed2 x = renderCenti n := by
  unfold formatFixed2
  rw [h, roundHE_eq_floor _ (by rw [Int.fract_intCast]; norm_num),
    Int.floor_intCast]

lemma humanize_offline_tiny : humanize ((1 : ℝ) / 1e10) = "0.00 sec" := by
  unfold humanize humanizeUnits humanizeAux
  rw [if_pos (Or.inl (by norm_num))]
  rw [formatFixed2_zero_small _ (by norm_num) (by norm_num)]
  rfl

lemma humanize_centi : humanize ((1 : ℝ) / 100) = "0.01 sec" := by
  unfold humanize humanizeUnits humanizeAux
  rw [if_pos (Or.inl (by norm_num))]
  rw [formatFixed2_of_cast _ 1 (by norm_num)]
  rfl

lemma humanize_120 : humanize (120 : ℝ) = "2.00 min" := by
  unfold humanize humanizeUnits humanizeAux
  rw [if_neg (not_or.mpr ⟨by norm_num, by decide⟩)]
  unfold humanizeAux
  rw [if_pos (Or.inl (by norm_num))]
  rw [formatFixed2_of_cast _ 200 (by norm_num)]
  rfl

lemma humanizeSpecLargest_120 : humanizeSpecLargest 120 = "0.00 century" := by
  unfold humanizeSpecLargest humanizeUnits
  rw [show ([(("sec" : String), (1 : ℝ)), ("min", 60), ("hr", 3600),
      ("day", 86400), ("yr", 31557600), ("century", 3155760000)]).reverse =
      [(("century" : String), (3155760000 : ℝ)), ("yr", 31557600),
       ("day", 86400), ("hr", 3600), ("min", 60), ("sec", 1)] from rfl]
  simp only [specFirstUnit]
  rw [if_pos (by norm_num : (120 : ℝ) < 3155760000 * 60)]
  rw [formatFixed2_zero_small _ (by norm_num) (by norm_num)]
  rfl

lemma expected_guesses_zero : expected_guesses 0 = 1 := by
  unfold expected_guesses
  rw [max_eq_right (by norm_num : (0 : ℝ) - 1 ≤ 0), Real.rpow_zero]

/-- Counterexample to claim C4: at 0 entropy bits the projector computes
`2^max(0−1, 0) = 2^0 = 1` expected guess, not zero, and the `online_slow`
string is `"0.01 sec"`, not `"0.00 sec"`. -/
theorem C4_zero_bits_counterexample :
    ¬(expected_guesses 0 = 0 ∧
      (crack_time_estimates 0).offline_fast = "0.00 sec" ∧
      (crack_time_estimates 0).online_slow = "0.00 sec") := by
  rintro ⟨h, -, -⟩
  rw [expected_guesses_zero] at h
  norm_num at h

/-- Claim C4 as amended: at 0 entropy bits the crack-time projector yields
one expected guess (`2^max(0−1,0) = 1`); `offline_fast` humanizes
`1/1e10` seconds as `"0.00 sec"` while `online_slow` humanizes `1/100`
seconds as `"0.01 sec"`. -/
theorem C4_zero_bits_amended :
    expected_guesses 0 = 1 ∧
    (crack_time_estimates 0).offline_fast = "0.00 sec" ∧
    (crack_time_estimates 0).online_slow = "0.01 sec" := by
  refine ⟨expected_guesses_zero, ?_, ?_⟩
  · show humanize (expected_guesses 0 / 1e10) = "0.00 sec"
    rw [expected_guesses_zero]
    exact humanize_offline_tiny
  · show humanize (expected_guesses 0 / 100) = "0.01 sec"
    rw [expected_guesses_zero]
    exact humanize_centi

/-- Counterexample to claim C7: at the duration 120 seconds the humanizer
prints `"2.00 min"`, whereas selecting the largest unit of the table
satisfying `duration < 60×span` (as the claim is worded) would select
`century` and print `"0.00 century"`. -/
theorem C7_largest_unit_counterexample :
    humanize 120 = "2.00 min" ∧
    humanizeSpecLargest 120 = "0.00 century" ∧
    ("2.00 min" : String) ≠ "0.00 century" :=
  ⟨humanize_120, humanizeSpecLargest_120, by decide⟩

/-- Claim C7 as amended: for every duration in seconds, the humanizer
selects the first — i.e. smallest, not largest — unit of the ordered table
`{sec, min, hr, day, yr, century}` such that the duration is strictly less
than 60× that unit's span, falling back to `century` if none qualify, and
formats the duration divided by the selected span to 2 decimal places
followed by the unit name. -/
theorem C7_humanize_first_unit_amended (s : ℝ) :
    humanize s = humanizeSpecFirst s := by
  unfold humanize humanizeSpecFirst humanizeUnits
  simp only [humanizeAux, specFirstUnit]
  by_cases h1 : s < 1 * 60
  · rw [if_pos (Or.inl h1), if_pos h1]
  · rw [if_neg (not_or.mpr ⟨h1, by decide⟩), if_neg h1]
    by_cases h2 : s < 60 * 60
    · rw [if_pos (Or.inl h2), if_pos h2]
    · rw [if_neg (not_or.mpr ⟨h2, by decide⟩), if_neg h2]
      by_cases h3 : s < 3600 * 60
      · rw [if_pos (Or.inl h3), if_pos h3]
      · rw [if_neg (not_or.mpr ⟨h3, by decide⟩), if_neg h3]
        by_cases h4 : s < 86400 * 60
        · rw [if_pos (Or.inl h4), if_pos h4]
        · rw [if_neg (not_or.mpr ⟨h4, by decide⟩), if_neg h4]
          by_cases h5 : s < 31557600 * 60
          · rw [if_pos (Or.inl h5), if_pos h5]
          · rw [if_neg (not_or.mpr ⟨h5, by decide⟩), if_neg h5]
            rw [if_pos (Or.inr trivial), ite_self]
